import Mathlib

/-!
# Verification of `shadowsocks-core/src/context.rs`

A shallow embedding of the shared server context of shadowsocks-rust:
the anti-replay nonce filter (`PingPongBloom`), the running flag, the
reverse-lookup cache used by the DNS relay, and the ACL-backed bypass
decisions, together with proofs of the specified properties.

Modelling conventions:
* Byte strings (`&[u8]`) are `List Nat`.
* The external `bloomfilter::Bloom` collaborator is idealized as an exact
  set of byte strings (the spec describes it as a probabilistic set with
  one-sided error; the false-positive rate, a `f64`, is not modelled).
* The `lru_time_cache::LruCache` collaborator is modelled as an
  association list; the 3-day time-based expiry is not modelled (all
  statements are about lookups inside the retention window).
* Locks (`spin::Mutex`, `tokio::sync::Mutex`) serialize each operation;
  operations are therefore modelled as pure state transformers.
-/

/-- A byte string, the payload type of the nonce filter (`&[u8]`). -/
abbrev Bytes := List Nat

/-- Modelled from the spec: the external `bloomfilter::Bloom` collaborator,
idealized as an exact set of byte strings (spec §2: a bounded-capacity
probabilistic set answering membership with one-sided error). -/
abbrev Bloom := List Bytes

/-- `Bloom::check`: membership query. -/
def Bloom.check (b : Bloom) (buf : Bytes) : Bool := decide (buf ∈ b)

/-- `Bloom::set`: insert an element. -/
def Bloom.set (b : Bloom) (buf : Bytes) : Bloom := buf :: b

/-- `Bloom::clear`: remove every element. -/
def Bloom.clear : Bloom := []

/-- Modelled from the spec: `ConfigType` (from `config.rs`, not under
`src/`) restricted to what `context.rs` consumes — the deployment role,
client/local versus server/remote, queried through `is_local`. -/
inductive ConfigType where
  | Local
  | Server
deriving DecidableEq

/-- `ConfigType::is_local`. -/
def ConfigType.is_local : ConfigType → Bool
  | .Local => true
  | .Server => false

/-- `BF_NUM_ENTRIES_FOR_SERVER`: entries for server's bloom filter. -/
def BF_NUM_ENTRIES_FOR_SERVER : Nat := 1000000

/-- `BF_NUM_ENTRIES_FOR_CLIENT`: entries for client's bloom filter. -/
def BF_NUM_ENTRIES_FOR_CLIENT : Nat := 10000

/-- `PingPongBloom`: two bloom filters used as a ring buffer, each holding
half of the nominal entry count.  The array fields `blooms: [Bloom; 2]`
and `bloom_count: [usize; 2]` are encoded as two fields each; `current`
is the index of the active slot. -/
structure PingPongBloom where
  bloom0 : Bloom
  bloom1 : Bloom
  bloom_count0 : Nat
  bloom_count1 : Nat
  item_count : Nat
  current : Nat
deriving DecidableEq

/-- `PingPongBloom::new`: per-slot capacity is half of the role's nominal
entry count (the `f64` false-positive rates are not part of the model). -/
def PingPongBloom.new (ty : ConfigType) : PingPongBloom :=
  let item_count :=
    (if ty.is_local then BF_NUM_ENTRIES_FOR_CLIENT else BF_NUM_ENTRIES_FOR_SERVER) / 2
  { bloom0 := Bloom.clear
    bloom1 := Bloom.clear
    bloom_count0 := 0
    bloom_count1 := 0
    item_count := item_count
    current := 0 }

/-- `PingPongBloom::check_and_set`: check whether `buf` is in either slot;
if so return `true` without mutating state; otherwise rotate if the active
slot is full, then insert `buf` into the active slot. -/
def PingPongBloom.check_and_set (s : PingPongBloom) (buf : Bytes) : Bool × PingPongBloom :=
  if Bloom.check s.bloom0 buf || Bloom.check s.bloom1 buf then
    (true, s)
  else
    let s1 :=
      if s.item_count ≤ (if s.current = 0 then s.bloom_count0 else s.bloom_count1) then
        -- Current bloom filter is full: move to the next one and clear it.
        if (s.current + 1) % 2 = 0 then
          { s with current := 0, bloom_count0 := 0, bloom0 := Bloom.clear }
        else
          { s with current := 1, bloom_count1 := 0, bloom1 := Bloom.clear }
      else s
    if s1.current = 0 then
      (false, { s1 with bloom0 := Bloom.set s1.bloom0 buf, bloom_count0 := s1.bloom_count0 + 1 })
    else
      (false, { s1 with bloom1 := Bloom.set s1.bloom1 buf, bloom_count1 := s1.bloom_count1 + 1 })

/-- An IP address (`std::net::IpAddr`), abstracted to its identity. -/
abbrev IpAddr := Nat

/-- A socket address (`std::net::SocketAddr`): an IP address and a port. -/
structure SocketAddr where
  ip : IpAddr
  port : Nat
deriving DecidableEq

/-- Modelled from the spec: `socks5::Address` (from `relay/socks5.rs`, not
under `src/`) — either an already-resolved socket address or a domain name
with a port. -/
inductive Address where
  | SocketAddress (sa : SocketAddr)
  | DomainNameAddress (host : String) (port : Nat)

/-- Modelled from the spec: the `AccessControl` collaborator (from
`acl.rs`, not under `src/`), abstracted to the decision oracles
`context.rs` consumes: "is this IP in the proxy list" and the full ACL
evaluation behind `check_target_bypassed`. -/
structure AccessControl where
  check_ip_in_proxy_list : IpAddr → Bool
  check_target_bypassed : Address → Bool

/-- The part of `Config` that `context.rs` reads: the deployment role and
the optional ACL document. -/
structure Config where
  config_type : ConfigType
  acl : Option AccessControl

/-- `ServerState`: global shared server state (its only field, the
optional trust-dns resolver handle, is out of the model's scope). -/
structure ServerState where

/-- The reverse-lookup cache (`LruCache<IpAddr, bool>`), modelled as an
association list; lookup takes the first matching entry. -/
abbrev ReverseLookupCache := List (IpAddr × Bool)

/-- Point query on the reverse-lookup cache (`LruCache::get`). -/
def cacheGet : ReverseLookupCache → IpAddr → Option Bool
  | [], _ => none
  | (k, v) :: rest, ip => if k = ip then some v else cacheGet rest ip

/-- `LruCache::remove`: drop every entry for `ip`. -/
def cacheRemove (c : ReverseLookupCache) (ip : IpAddr) : ReverseLookupCache :=
  c.filter (fun p => p.1 != ip)

/-- `LruCache::insert` (also `*value = forward` on a `get_mut` hit):
(re)bind `ip` to `v`. -/
def cacheInsert (c : ReverseLookupCache) (ip : IpAddr) (v : Bool) : ReverseLookupCache :=
  (ip, v) :: cacheRemove c ip

/-- `Context`: shared basic configuration for the whole server.  The
flow-statistics and local-DNS handles are out of the model's scope. -/
structure Context where
  config : Config
  server_state : ServerState
  server_running : Bool
  nonce_ppbloom : PingPongBloom
  reverse_lookup_cache : ReverseLookupCache

/-- `Context::acl`. -/
def Context.acl (ctx : Context) : Option AccessControl := ctx.config.acl

/-- `Context::new_with_state`: running flag starts `true`, the nonce
filter is sized by the config's role, the reverse-lookup cache starts
empty.  (The deprecated-cipher warning loop only logs and is omitted.) -/
def Context.new_with_state (config : Config) (server_state : ServerState) : Context :=
  { config := config
    server_state := server_state
    server_running := true
    nonce_ppbloom := PingPongBloom.new config.config_type
    reverse_lookup_cache := [] }

/-- `Context::set_server_stopped`. -/
def Context.set_server_stopped (ctx : Context) : Context :=
  { ctx with server_running := false }

/-- `Context::check_nonce_and_set`: empty nonce is always treated as
non-duplicated without consulting the filter; otherwise delegate to the
filter under the spin lock. -/
def Context.check_nonce_and_set (ctx : Context) (nonce : Bytes) : Bool × Context :=
  if nonce.isEmpty then
    (false, ctx)
  else
    let res := ctx.nonce_ppbloom.check_and_set nonce
    (res.1, { ctx with nonce_ppbloom := res.2 })

/-- The fresh ACL-only decision `context.rs` computes inline in
`add_to_reverse_lookup_cache`: proxy everything by default when no ACL is
configured, otherwise ask the ACL's proxy list. -/
def aclFreshDecision (ctx : Context) (addr : IpAddr) : Bool :=
  match ctx.config.acl with
  | none => true
  | some a => a.check_ip_in_proxy_list addr

/-- `Context::add_to_reverse_lookup_cache`: keep an entry only while it is
an exception to the fresh ACL-only decision. -/
def Context.add_to_reverse_lookup_cache (ctx : Context) (addr : IpAddr) (forward : Bool) :
    Context :=
  let is_exception := forward != aclFreshDecision ctx addr
  let cache := ctx.reverse_lookup_cache
  let cache1 :=
    match cacheGet cache addr with
    | some _ =>
      if is_exception then cacheInsert cache addr forward
      else
        -- we do not need to remember the entry if it is already matched correctly
        cacheRemove cache addr
    | none =>
      if is_exception then cacheInsert cache addr forward else cache
  { ctx with reverse_lookup_cache := cache1 }

/-- `Context::check_target_bypassed`: no ACL means proxy everything
(`false`); with an ACL, a resolved socket address consults the
reverse-lookup cache first and a hit short-circuits with the negation of
the cached "forward" flag; otherwise fall through to the ACL. -/
def Context.check_target_bypassed (ctx : Context) (target : Address) : Bool :=
  match ctx.config.acl with
  | none => false
  | some a =>
    match target with
    | Address.SocketAddress saddr =>
      match cacheGet ctx.reverse_lookup_cache saddr.ip with
      | some forward => !forward
      | none => AccessControl.check_target_bypassed a target
    | Address.DomainNameAddress _ _ => AccessControl.check_target_bypassed a target

/-! ## Specification-side definitions for the refinement claim (C1)

These follow the wording of the spec's `check_and_mark` algorithm (spec
§4.1, steps 1–4), to be compared with the source translation
`PingPongBloom.check_and_set` above. -/

/-- Spec step 1: query both slots for membership. -/
def queryBothSlots (s : PingPongBloom) (buf : Bytes) : Bool :=
  Bloom.check s.bloom0 buf || Bloom.check s.bloom1 buf

/-- The active slot's insertion counter. -/
def activeCount (s : PingPongBloom) : Nat :=
  if s.current = 0 then s.bloom_count0 else s.bloom_count1

/-- Spec step 2's rotation: flip `active`, clear the newly active slot and
reset that slot's counter to zero. -/
def rotateSlots (s : PingPongBloom) : PingPongBloom :=
  if (s.current + 1) % 2 = 0 then
    { s with current := 0, bloom_count0 := 0, bloom0 := Bloom.clear }
  else
    { s with current := 1, bloom_count1 := 0, bloom1 := Bloom.clear }

/-- Spec step 3: insert into the active slot and increment its counter. -/
def insertActive (s : PingPongBloom) (buf : Bytes) : PingPongBloom :=
  if s.current = 0 then
    { s with bloom0 := Bloom.set s.bloom0 buf, bloom_count0 := s.bloom_count0 + 1 }
  else
    { s with bloom1 := Bloom.set s.bloom1 buf, bloom_count1 := s.bloom_count1 + 1 }

/-- The reference algorithm of spec §4.1, assembled from the steps: return
`true` on a hit without mutating state; otherwise rotate when the active
counter has reached the per-slot capacity, insert, and return `false`. -/
def check_and_mark_ref (s : PingPongBloom) (buf : Bytes) : Bool × PingPongBloom :=
  if queryBothSlots s buf then
    (true, s)
  else
    let s1 := if s.item_count ≤ activeCount s then rotateSlots s else s
    (false, insertActive s1 buf)

/-- C1: `check_and_set` follows the reference algorithm: membership in
either slot returns `true` with no mutation; otherwise a full active slot
triggers a rotation (flip the index, clear the newly active slot, zero its
counter), and the value is inserted into the now-active slot, whose
counter is incremented, returning `false`. -/
theorem claim_C1_check_and_set_follows_reference :
    ∀ (s : PingPongBloom) (buf : Bytes),
      PingPongBloom.check_and_set s buf = check_and_mark_ref s buf := by
  intro s buf
  simp only [PingPongBloom.check_and_set, check_and_mark_ref, queryBothSlots, activeCount,
    rotateSlots, insertActive, apply_ite (Prod.mk false)]

/-- C5: the empty nonce is always reported non-duplicated and the whole
context — the filter included — is left unchanged. -/
theorem claim_C5_empty_nonce_always_novel :
    ∀ ctx : Context, Context.check_nonce_and_set ctx [] = (false, ctx) := by
  intro ctx
  rfl

/-! ## Reverse-lookup cache lemmas -/

/-- Looking up a key just inserted returns the inserted value. -/
theorem cacheGet_cacheInsert (c : ReverseLookupCache) (ip : IpAddr) (v : Bool) :
    cacheGet (cacheInsert c ip v) ip = some v := by
  simp [cacheInsert, cacheGet]

/-- Looking up a key just removed returns nothing. -/
theorem cacheGet_cacheRemove (c : ReverseLookupCache) (ip : IpAddr) :
    cacheGet (cacheRemove c ip) ip = none := by
  induction c with
  | nil => rfl
  | cons p rest ih =>
    obtain ⟨k, v⟩ := p
    by_cases h : k = ip
    · simp [cacheRemove, cacheGet, h] at ih ⊢
      exact ih
    · simp [cacheRemove, cacheGet, h] at ih ⊢
      exact ih

/-- C7: after `add_to_reverse_lookup_cache(ip, forward)`, the cache holds
`forward` for `ip` exactly when `forward` disagrees with the freshly
computed ACL-only decision for `ip`; agreement removes any pre-existing
entry.  In particular with no ACL configured, recording `true` leaves no
entry and recording `false` caches `false`. -/
theorem claim_C7_reverse_cache_exception_rule :
    (∀ (ctx : Context) (ip : IpAddr) (forward : Bool),
      cacheGet (Context.add_to_reverse_lookup_cache ctx ip forward).reverse_lookup_cache ip
        = if forward = aclFreshDecision ctx ip then none else some forward)
    ∧ (∀ (ctx : Context) (ip : IpAddr), ctx.config.acl = none →
        cacheGet (Context.add_to_reverse_lookup_cache ctx ip true).reverse_lookup_cache ip = none
        ∧ cacheGet (Context.add_to_reverse_lookup_cache ctx ip false).reverse_lookup_cache ip
            = some false) := by
  have key : ∀ (ctx : Context) (ip : IpAddr) (forward : Bool),
      cacheGet (Context.add_to_reverse_lookup_cache ctx ip forward).reverse_lookup_cache ip
        = if forward = aclFreshDecision ctx ip then none else some forward := by
    intro ctx ip forward
    unfold Context.add_to_reverse_lookup_cache
    by_cases hx : forward = aclFreshDecision ctx ip
    · simp only [hx, bne_self_eq_false, if_true]
      cases hget : cacheGet ctx.reverse_lookup_cache ip with
      | none => simp [hget]
      | some v => simp [hget, cacheGet_cacheRemove]
    · have hbne : (forward != aclFreshDecision ctx ip) = true := by
        simp [bne_iff_ne, hx]
      cases hget : cacheGet ctx.reverse_lookup_cache ip with
      | none => simp [hget, hbne, hx, cacheGet_cacheInsert]
      | some v => simp [hget, hbne, hx, cacheGet_cacheInsert]
  refine ⟨key, ?_⟩
  intro ctx ip hacl
  have hfresh : aclFreshDecision ctx ip = true := by
    unfold aclFreshDecision
    rw [hacl]
  constructor
  · rw [key ctx ip true, hfresh]
    simp
  · rw [key ctx ip false, hfresh]
    simp

/-- C10: with no ACL configured, `check_target_bypassed` returns `false`
for every target and every cache state — a cached bypass exception for the
target's IP is never consulted. -/
theorem claim_C10_no_acl_never_bypassed :
    ∀ (ctx : Context) (target : Address), ctx.config.acl = none →
      Context.check_target_bypassed ctx target = false := by
  intro ctx target hacl
  unfold Context.check_target_bypassed
  rw [hacl]

/-- C8: with an ACL configured and a resolved socket-address target, the
reverse-lookup cache is consulted first: a hit short-circuits to the
negation of the cached "forward" flag, and only a miss falls through to
the full ACL evaluation. -/
theorem claim_C8_cache_short_circuits_acl :
    ∀ (ctx : Context) (a : AccessControl) (saddr : SocketAddr),
      ctx.config.acl = some a →
      Context.check_target_bypassed ctx (Address.SocketAddress saddr)
        = match cacheGet ctx.reverse_lookup_cache saddr.ip with
          | some forward => !forward
          | none => AccessControl.check_target_bypassed a (Address.SocketAddress saddr) := by
  intro ctx a saddr hacl
  unfold Context.check_target_bypassed
  rw [hacl]

/-! ## Running flag (C9) -/

/-- The context's state-affecting operations, for quantifying over call
sequences: stopping the server, a nonce check, a reverse-lookup-cache
record, a bypass check (read-only on the modelled state), and the
bootstrap-only `config_mut` path allowing an arbitrary config mutation. -/
inductive ContextOp where
  | set_server_stopped
  | check_nonce_and_set (nonce : Bytes)
  | add_to_reverse_lookup_cache (ip : IpAddr) (forward : Bool)
  | check_target_bypassed (target : Address)
  | config_mut (f : Config → Config)

/-- Apply one operation to the context, discarding returned values. -/
def applyOp (ctx : Context) : ContextOp → Context
  | .set_server_stopped => Context.set_server_stopped ctx
  | .check_nonce_and_set nonce => (Context.check_nonce_and_set ctx nonce).2
  | .add_to_reverse_lookup_cache ip forward => Context.add_to_reverse_lookup_cache ctx ip forward
  | .check_target_bypassed _ => ctx
  | .config_mut f => { ctx with config := f ctx.config }

/-- Apply a sequence of operations in order. -/
def applyOps (ctx : Context) (ops : List ContextOp) : Context :=
  ops.foldl applyOp ctx

/-- No operation ever raises the running flag back to `true`. -/
theorem applyOp_server_running_false (ctx : Context) (op : ContextOp)
    (h : ctx.server_running = false) : (applyOp ctx op).server_running = false := by
  cases op with
  | set_server_stopped => rfl
  | check_nonce_and_set nonce =>
    simp only [applyOp, Context.check_nonce_and_set]
    split
    · exact h
    · exact h
  | add_to_reverse_lookup_cache ip forward => exact h
  | check_target_bypassed target => exact h
  | config_mut f => exact h

/-- Once `false`, the running flag stays `false` under any sequence. -/
theorem applyOps_server_running_false (ops : List ContextOp) :
    ∀ ctx : Context, ctx.server_running = false →
      (applyOps ctx ops).server_running = false := by
  induction ops with
  | nil => intro ctx h; exact h
  | cons op rest ih =>
    intro ctx h
    exact ih (applyOp ctx op) (applyOp_server_running_false ctx op h)

/-- C9: the running flag is `true` immediately after construction;
`set_server_stopped` is one-way and idempotent: after it, no sequence of
the context's operations (further stops included) ever makes
`server_running` return `true` again. -/
theorem claim_C9_running_flag_one_way :
    (∀ (cfg : Config) (st : ServerState),
      (Context.new_with_state cfg st).server_running = true)
    ∧ (∀ (ctx : Context) (ops : List ContextOp),
      (applyOps (Context.set_server_stopped ctx) ops).server_running = false) := by
  constructor
  · intro cfg st
    rfl
  · intro ctx ops
    exact applyOps_server_running_false ops _ rfl

/-! ## Nonce filter: basic lemmas and the exactly-once property (C2) -/

/-- The result of `check_and_set` is exactly "was the value in either
slot before the call". -/
theorem check_and_set_fst (s : PingPongBloom) (buf : Bytes) :
    (PingPongBloom.check_and_set s buf).1
      = (Bloom.check s.bloom0 buf || Bloom.check s.bloom1 buf) := by
  cases hc : (Bloom.check s.bloom0 buf || Bloom.check s.bloom1 buf) with
  | true => simp [PingPongBloom.check_and_set, hc]
  | false =>
    simp only [PingPongBloom.check_and_set, hc, Bool.false_eq_true, if_false]
    split_ifs <;> rfl

/-- A hit leaves the filter state unchanged. -/
theorem check_and_set_state_of_present (s : PingPongBloom) (buf : Bytes)
    (hp : (Bloom.check s.bloom0 buf || Bloom.check s.bloom1 buf) = true) :
    PingPongBloom.check_and_set s buf = (true, s) := by
  simp [PingPongBloom.check_and_set, hp]

/-- After any `check_and_set buf` call, `buf` is in one of the slots. -/
theorem check_and_set_present_after (s : PingPongBloom) (buf : Bytes) :
    (Bloom.check (PingPongBloom.check_and_set s buf).2.bloom0 buf
      || Bloom.check (PingPongBloom.check_and_set s buf).2.bloom1 buf) = true := by
  cases hc : (Bloom.check s.bloom0 buf || Bloom.check s.bloom1 buf) with
  | true => simp [PingPongBloom.check_and_set, hc]
  | false =>
    simp only [PingPongBloom.check_and_set, hc, Bool.false_eq_true, if_false]
    split_ifs <;> simp_all [Bloom.check, Bloom.set]

/-- Whether the context's nonce filter already holds `nonce` in one of its
two slots. -/
def noncePresent (ctx : Context) (nonce : Bytes) : Bool :=
  Bloom.check ctx.nonce_ppbloom.bloom0 nonce || Bloom.check ctx.nonce_ppbloom.bloom1 nonce

/-- For a non-empty nonce the verdict is exactly prior presence. -/
theorem check_nonce_and_set_fst (ctx : Context) (nonce : Bytes) (hne : nonce ≠ []) :
    (Context.check_nonce_and_set ctx nonce).1 = noncePresent ctx nonce := by
  cases nonce with
  | nil => exact absurd rfl hne
  | cons a t =>
    simp only [Context.check_nonce_and_set, List.isEmpty_cons, Bool.false_eq_true, if_false]
    exact check_and_set_fst ctx.nonce_ppbloom (a :: t)

/-- A call whose nonce is already present does not change the context. -/
theorem check_nonce_and_set_state_of_present (ctx : Context) (nonce : Bytes)
    (hp : noncePresent ctx nonce = true) :
    (Context.check_nonce_and_set ctx nonce).2 = ctx := by
  cases nonce with
  | nil => rfl
  | cons a t =>
    simp only [Context.check_nonce_and_set, List.isEmpty_cons, Bool.false_eq_true, if_false]
    rw [check_and_set_state_of_present ctx.nonce_ppbloom (a :: t) hp]

/-- After any call with a non-empty nonce, that nonce is present. -/
theorem noncePresent_after (ctx : Context) (nonce : Bytes) (hne : nonce ≠ []) :
    noncePresent (Context.check_nonce_and_set ctx nonce).2 nonce = true := by
  cases nonce with
  | nil => exact absurd rfl hne
  | cons a t =>
    simp only [noncePresent, Context.check_nonce_and_set, List.isEmpty_cons,
      Bool.false_eq_true, if_false]
    exact check_and_set_present_after ctx.nonce_ppbloom (a :: t)

/-- `K` sequential `check_nonce_and_set` calls with the same nonce: the
lock serializes concurrent callers, and since all calls are identical any
interleaving is this sequential iteration.  Returns the list of verdicts
and the final context. -/
def repeatCheck (nonce : Bytes) : Context → Nat → List Bool × Context
  | ctx, 0 => ([], ctx)
  | ctx, k + 1 =>
    let res := Context.check_nonce_and_set ctx nonce
    let rest := repeatCheck nonce res.2 k
    (res.1 :: rest.1, rest.2)

/-- Starting from a context that already holds the nonce, every verdict
is "replay". -/
theorem repeatCheck_present (nonce : Bytes) (hne : nonce ≠ []) :
    ∀ (K : Nat) (ctx : Context), noncePresent ctx nonce = true →
      (repeatCheck nonce ctx K).1 = List.replicate K true := by
  intro K
  induction K with
  | zero => intro ctx _; rfl
  | succ k ih =>
    intro ctx hp
    have h1 : (Context.check_nonce_and_set ctx nonce).1 = true := by
      rw [check_nonce_and_set_fst ctx nonce hne]; exact hp
    have h2 : (Context.check_nonce_and_set ctx nonce).2 = ctx :=
      check_nonce_and_set_state_of_present ctx nonce hp
    simp [repeatCheck, h1, h2, ih ctx hp, List.replicate_succ]

/-- Starting from a context that does not hold the nonce, the first
verdict is "novel" and all later ones are "replay". -/
theorem repeatCheck_absent (nonce : Bytes) (hne : nonce ≠ []) (K : Nat) (ctx : Context)
    (hp : noncePresent ctx nonce = false) (hK : 1 ≤ K) :
    (repeatCheck nonce ctx K).1 = false :: List.replicate (K - 1) true := by
  cases K with
  | zero => omega
  | succ k =>
    have h1 : (Context.check_nonce_and_set ctx nonce).1 = false := by
      rw [check_nonce_and_set_fst ctx nonce hne]; exact hp
    have h2 := noncePresent_after ctx nonce hne
    simp [repeatCheck, h1, repeatCheck_present nonce hne k _ h2]

/-- C2: `K` concurrent `check_nonce_and_set` calls with the same non-empty
nonce — serialized by the spin lock, hence modelled as `K` sequential
calls — yield exactly one "novel" (`false`) and `K - 1` "replay" (`true`)
verdicts when the nonce was unseen, and in every starting state at most
one caller can observe "novel". -/
theorem claim_C2_concurrent_exactly_once :
    ∀ nonce : Bytes, nonce ≠ [] →
      ((∀ (ctx : Context) (K : Nat), noncePresent ctx nonce = false → 1 ≤ K →
          (repeatCheck nonce ctx K).1.count false = 1
          ∧ (repeatCheck nonce ctx K).1.count true = K - 1
          ∧ (repeatCheck nonce ctx K).1.length = K)
        ∧ (∀ (ctx : Context) (K : Nat), (repeatCheck nonce ctx K).1.count false ≤ 1)) := by
  intro nonce hne
  constructor
  · intro ctx K hp hK
    rw [repeatCheck_absent nonce hne K ctx hp hK]
    cases K with
    | zero => omega
    | succ k => simp [List.count_cons, List.count_replicate]
  · intro ctx K
    cases hp : noncePresent ctx nonce with
    | true =>
      rw [repeatCheck_present nonce hne K ctx hp]
      simp [List.count_replicate]
    | false =>
      cases K with
      | zero => simp [repeatCheck]
      | succ k =>
        rw [repeatCheck_absent nonce hne (k + 1) ctx hp (by omega)]
        simp [List.count_cons, List.count_replicate]

/-- A concrete context: client role, no ACL, fresh caches. -/
def sampleContext : Context :=
  Context.new_with_state { config_type := ConfigType.Local, acl := none } ⟨⟩

/-- Witness for C2 at `nonce = [7]`, `K = 2` on a freshly built context. -/
theorem claim_C2_concurrent_exactly_once_witness :
    (repeatCheck [7] sampleContext 2).1.count false = 1
    ∧ (repeatCheck [7] sampleContext 2).1.count true = 1
    ∧ (repeatCheck [7] sampleContext 2).1.length = 2 :=
  (claim_C2_concurrent_exactly_once [7] (by decide)).1 sampleContext 2 (by decide) (by decide)

/-! ## Counter invariants and the memory bound (C6) -/

/-- `check_and_set` never changes the per-slot capacity. -/
theorem check_and_set_item_count (s : PingPongBloom) (buf : Bytes) :
    (PingPongBloom.check_and_set s buf).2.item_count = s.item_count := by
  cases hc : (Bloom.check s.bloom0 buf || Bloom.check s.bloom1 buf) with
  | true => rw [check_and_set_state_of_present s buf hc]
  | false =>
    simp only [PingPongBloom.check_and_set, hc, Bool.false_eq_true, if_false]
    split_ifs <;> rfl

/-- One `check_and_set` call keeps both slot counters within the per-slot
capacity (provided the capacity is at least one). -/
theorem check_and_set_counts (s : PingPongBloom) (buf : Bytes)
    (hk : 1 ≤ s.item_count)
    (h0 : s.bloom_count0 ≤ s.item_count) (h1 : s.bloom_count1 ≤ s.item_count) :
    (PingPongBloom.check_and_set s buf).2.bloom_count0 ≤ s.item_count
    ∧ (PingPongBloom.check_and_set s buf).2.bloom_count1 ≤ s.item_count := by
  cases hc : (Bloom.check s.bloom0 buf || Bloom.check s.bloom1 buf) with
  | true =>
    rw [check_and_set_state_of_present s buf hc]
    exact ⟨h0, h1⟩
  | false =>
    simp only [PingPongBloom.check_and_set, hc, Bool.false_eq_true, if_false]
    split_ifs <;> simp_all <;> omega

/-- Insert the values `v 0, v 1, …, v (M-1)` in order through
`check_and_set`, starting from `s`. -/
def runIns (v : Nat → Bytes) (s : PingPongBloom) : Nat → PingPongBloom
  | 0 => s
  | m + 1 => (PingPongBloom.check_and_set (runIns v s m) (v m)).2

/-- The capacity is constant along any insertion run. -/
theorem runIns_item_count (v : Nat → Bytes) (s : PingPongBloom) :
    ∀ M : Nat, (runIns v s M).item_count = s.item_count := by
  intro M
  induction M with
  | zero => rfl
  | succ m ih => rw [runIns, check_and_set_item_count, ih]

/-- Both counters stay within the per-slot capacity along any run. -/
theorem runIns_counts (v : Nat → Bytes) (s : PingPongBloom) (hk : 1 ≤ s.item_count)
    (h0 : s.bloom_count0 ≤ s.item_count) (h1 : s.bloom_count1 ≤ s.item_count) :
    ∀ M : Nat, (runIns v s M).bloom_count0 ≤ s.item_count
      ∧ (runIns v s M).bloom_count1 ≤ s.item_count := by
  intro M
  induction M with
  | zero => exact ⟨h0, h1⟩
  | succ m ih =>
    have hic := runIns_item_count v s m
    have hres := check_and_set_counts (runIns v s m) (v m)
      (by rw [hic]; exact hk) (by rw [hic]; exact ih.1) (by rw [hic]; exact ih.2)
    rw [hic] at hres
    exact ⟨hres.1, hres.2⟩

/-- C6: each slot counter never exceeds the per-slot capacity `N/2`, an
invariant preserved by every `check_and_set` call, so after any number of
insertions (`M > N` included) the retained total is at most the two-slot
capacity `N = 2 * item_count`. -/
theorem claim_C6_rotation_bounds_memory :
    (∀ (s : PingPongBloom) (buf : Bytes),
      1 ≤ s.item_count → s.bloom_count0 ≤ s.item_count → s.bloom_count1 ≤ s.item_count →
        (PingPongBloom.check_and_set s buf).2.bloom_count0 ≤ s.item_count
        ∧ (PingPongBloom.check_and_set s buf).2.bloom_count1 ≤ s.item_count)
    ∧ (∀ (ty : ConfigType) (v : Nat → Bytes) (M : Nat),
      (runIns v (PingPongBloom.new ty) M).bloom_count0
        + (runIns v (PingPongBloom.new ty) M).bloom_count1
        ≤ 2 * (PingPongBloom.new ty).item_count) := by
  constructor
  · intro s buf hk h0 h1
    exact check_and_set_counts s buf hk h0 h1
  · intro ty v M
    have hk : 1 ≤ (PingPongBloom.new ty).item_count := by cases ty <;> decide
    have hb := runIns_counts v (PingPongBloom.new ty) hk (Nat.zero_le _) (Nat.zero_le _) M
    omega

/-- Witness for C6 at a concrete client-role filter and one insertion. -/
theorem claim_C6_rotation_bounds_memory_witness :
    (PingPongBloom.check_and_set (PingPongBloom.new ConfigType.Local) [0]).2.bloom_count0
      ≤ (PingPongBloom.new ConfigType.Local).item_count
    ∧ (PingPongBloom.check_and_set (PingPongBloom.new ConfigType.Local) [0]).2.bloom_count1
      ≤ (PingPongBloom.new ConfigType.Local).item_count :=
  claim_C6_rotation_bounds_memory.1 (PingPongBloom.new ConfigType.Local) [0]
    (by decide) (by decide) (by decide)

/-! ## Closed form of the filter state along a run of distinct values

After `M = g*k + r` distinct insertions (`1 ≤ r ≤ k`) into a fresh filter
with per-slot capacity `k`, the active slot holds generation `g` (the `r`
values `v (g*k) … v (g*k + r - 1)`) and the retiring slot holds the full
generation `g-1`; earlier generations have been cleared by rotation. -/

/-- The slot contents after inserting `v a, …, v (a+n-1)` in order (most
recent first, as `Bloom.set` conses). -/
def slotList (v : Nat → Bytes) (a : Nat) : Nat → Bloom
  | 0 => []
  | n + 1 => v (a + n) :: slotList v a n

/-- Membership in a slot is having an index in the slot's window. -/
theorem mem_slotList {v : Nat → Bytes} {a : Nat} {x : Bytes} :
    ∀ {n : Nat}, x ∈ slotList v a n ↔ ∃ i, a ≤ i ∧ i < a + n ∧ x = v i := by
  intro n
  induction n with
  | zero =>
    constructor
    · intro h
      exact absurd h (List.not_mem_nil x)
    · rintro ⟨i, h1, h2, _⟩
      exact absurd h2 (by omega)
  | succ n ih =>
    simp only [slotList, List.mem_cons, ih]
    constructor
    · rintro (rfl | ⟨i, h1, h2, rfl⟩)
      · exact ⟨a + n, by omega, by omega, rfl⟩
      · exact ⟨i, h1, by omega, rfl⟩
    · rintro ⟨i, h1, h2, rfl⟩
      by_cases hi : i = a + n
      · subst hi; exact Or.inl rfl
      · exact Or.inr ⟨i, h1, by omega, rfl⟩

/-- A value with an index at or beyond the slot's window is not in the
slot, provided `v` is injective below `M`. -/
theorem not_mem_slotList {v : Nat → Bytes} {M a n m : Nat}
    (hinj : ∀ i j, i < M → j < M → v i = v j → i = j)
    (hm : m < M) (hout : a + n ≤ m) :
    v m ∉ slotList v a n := by
  rw [mem_slotList]
  rintro ⟨i, h1, h2, h3⟩
  have := hinj m i hm (by omega) h3
  omega

/-- A freshly constructed filter with per-slot capacity `k`. -/
def freshFilter (k : Nat) : PingPongBloom :=
  { bloom0 := []
    bloom1 := []
    bloom_count0 := 0
    bloom_count1 := 0
    item_count := k
    current := 0 }

/-- The client-role filter is fresh with per-slot capacity `10000/2`. -/
theorem new_Local_eq : PingPongBloom.new ConfigType.Local = freshFilter 5000 := by rfl

/-- The server-role filter is fresh with per-slot capacity `1000000/2`. -/
theorem new_Server_eq : PingPongBloom.new ConfigType.Server = freshFilter 500000 := by rfl

/-- The expected filter state after `g*k + r` distinct insertions
(`1 ≤ r ≤ k`): generation `g` sits in slot `g % 2` with counter `r`,
generation `g-1` (when `g ≥ 1`) fills the other slot. -/
def expState (v : Nat → Bytes) (k : Nat) : Nat → Nat → PingPongBloom
  | 0, r =>
    { bloom0 := slotList v 0 r
      bloom1 := []
      bloom_count0 := r
      bloom_count1 := 0
      item_count := k
      current := 0 }
  | g + 1, r =>
    if (g + 1) % 2 = 0 then
      { bloom0 := slotList v ((g + 1) * k) r
        bloom1 := slotList v (g * k) k
        bloom_count0 := r
        bloom_count1 := k
        item_count := k
        current := 0 }
    else
      { bloom0 := slotList v (g * k) k
        bloom1 := slotList v ((g + 1) * k) r
        bloom_count0 := k
        bloom_count1 := r
        item_count := k
        current := 1 }

/-- The first insertion into a fresh filter. -/
theorem runIns_one (v : Nat → Bytes) (k : Nat) (hk : 1 ≤ k) :
    PingPongBloom.check_and_set (freshFilter k) (v 0) = (false, expState v k 0 1) := by
  have hnot : ¬ (k ≤ 0) := by omega
  simp [PingPongBloom.check_and_set, freshFilter, Bloom.check, hnot, expState, slotList,
    Bloom.set]

/-- Inserting the next value while the active slot is below capacity
extends the active generation. -/
theorem step_no_rot (v : Nat → Bytes) (k g r : Nat)
    (hinj : ∀ i j, i < g * k + r + 1 → j < g * k + r + 1 → v i = v j → i = j)
    (hr1 : 1 ≤ r) (hrk : r < k) :
    PingPongBloom.check_and_set (expState v k g r) (v (g * k + r))
      = (false, expState v k g (r + 1)) := by
  cases g with
  | zero =>
    have hm0 : v r ∉ slotList v 0 r :=
      not_mem_slotList hinj (by omega) (by omega)
    have hc : (Bloom.check (expState v k 0 r).bloom0 (v (0 * k + r))
        || Bloom.check (expState v k 0 r).bloom1 (v (0 * k + r))) = false := by
      simp [expState, Bloom.check, hm0]
    simp only [PingPongBloom.check_and_set, hc, Bool.false_eq_true, if_false]
    have hnot : ¬ (k ≤ r) := by omega
    simp [expState, hnot, slotList, Bloom.set]
  | succ g' =>
    have hgk : (g' + 1) * k = g' * k + k := add_one_mul g' k
    have hm0 : v ((g' + 1) * k + r) ∉ slotList v ((g' + 1) * k) r :=
      not_mem_slotList hinj (by omega) (by omega)
    have hm1 : v ((g' + 1) * k + r) ∉ slotList v (g' * k) k :=
      not_mem_slotList hinj (by omega) (by omega)
    rcases Nat.mod_two_eq_zero_or_one (g' + 1) with hpar | hpar
    · have hc : (Bloom.check (expState v k (g' + 1) r).bloom0 (v ((g' + 1) * k + r))
          || Bloom.check (expState v k (g' + 1) r).bloom1 (v ((g' + 1) * k + r))) = false := by
        simp [expState, hpar, Bloom.check, hm0, hm1]
      simp only [PingPongBloom.check_and_set, hc, Bool.false_eq_true, if_false]
      have hnot : ¬ (k ≤ r) := by omega
      simp [expState, hpar, hnot, slotList, Bloom.set]
    · have hc : (Bloom.check (expState v k (g' + 1) r).bloom0 (v ((g' + 1) * k + r))
          || Bloom.check (expState v k (g' + 1) r).bloom1 (v ((g' + 1) * k + r))) = false := by
        simp [expState, hpar, Bloom.check, hm0, hm1]
      simp only [PingPongBloom.check_and_set, hc, Bool.false_eq_true, if_false]
      have hnot : ¬ (k ≤ r) := by omega
      simp [expState, hpar, hnot, slotList, Bloom.set]

/-- Inserting the next value while the active slot has reached capacity
rotates: the retiring slot is cleared and restarted with this value. -/
theorem step_rot (v : Nat → Bytes) (k g : Nat) (hk : 1 ≤ k)
    (hinj : ∀ i j, i < g * k + k + 1 → j < g * k + k + 1 → v i = v j → i = j) :
    PingPongBloom.check_and_set (expState v k g k) (v (g * k + k))
      = (false, expState v k (g + 1) 1) := by
  cases g with
  | zero =>
    have hm0 : v k ∉ slotList v 0 k :=
      not_mem_slotList hinj (by omega) (by omega)
    have hc : (Bloom.check (expState v k 0 k).bloom0 (v (0 * k + k))
        || Bloom.check (expState v k 0 k).bloom1 (v (0 * k + k))) = false := by
      simp [expState, Bloom.check, hm0]
    simp only [PingPongBloom.check_and_set, hc, Bool.false_eq_true, if_false]
    simp [expState, slotList, Bloom.set, Bloom.clear]
  | succ g' =>
    have hgk : (g' + 1) * k = g' * k + k := add_one_mul g' k
    have hm0 : v ((g' + 1) * k + k) ∉ slotList v ((g' + 1) * k) k :=
      not_mem_slotList hinj (by omega) (by omega)
    have hm1 : v ((g' + 1) * k + k) ∉ slotList v (g' * k) k :=
      not_mem_slotList hinj (by omega) (by omega)
    rcases Nat.mod_two_eq_zero_or_one (g' + 1) with hpar | hpar
    · have hpar2 : (g' + 1 + 1) % 2 = 1 := by omega
      have hc : (Bloom.check (expState v k (g' + 1) k).bloom0 (v ((g' + 1) * k + k))
          || Bloom.check (expState v k (g' + 1) k).bloom1 (v ((g' + 1) * k + k))) = false := by
        simp [expState, hpar, Bloom.check, hm0, hm1]
      simp only [PingPongBloom.check_and_set, hc, Bool.false_eq_true, if_false]
      simp [expState, hpar, hpar2, slotList, Bloom.set, Bloom.clear, add_one_mul]
    · have hpar2 : (g' + 1 + 1) % 2 = 0 := by omega
      have hc : (Bloom.check (expState v k (g' + 1) k).bloom0 (v ((g' + 1) * k + k))
          || Bloom.check (expState v k (g' + 1) k).bloom1 (v ((g' + 1) * k + k))) = false := by
        simp [expState, hpar, Bloom.check, hm0, hm1]
      simp only [PingPongBloom.check_and_set, hc, Bool.false_eq_true, if_false]
      simp [expState, hpar, hpar2, slotList, Bloom.set, Bloom.clear, add_one_mul]

/-- Closed form of a run of distinct insertions into a fresh filter:
after `g*k + r` insertions (`1 ≤ r ≤ k`) the state is `expState v k g r`. -/
theorem runIns_freshFilter (v : Nat → Bytes) (k : Nat) (hk : 1 ≤ k) :
    ∀ g r, 1 ≤ r → r ≤ k →
      (∀ i j, i < g * k + r → j < g * k + r → v i = v j → i = j) →
      runIns v (freshFilter k) (g * k + r) = expState v k g r := by
  intro g
  induction g with
  | zero =>
    intro r
    induction r with
    | zero => intro h1 _ _; exact absurd h1 (by omega)
    | succ r ihr =>
      intro _ hrk hinj
      by_cases hr0 : r = 0
      · subst hr0
        simp only [Nat.zero_add, Nat.zero_mul]
        show (PingPongBloom.check_and_set (runIns v (freshFilter k) 0) (v 0)).2
          = expState v k 0 1
        rw [show runIns v (freshFilter k) 0 = freshFilter k from rfl, runIns_one v k hk]
      · have hprev := ihr (by omega) (by omega)
          (by intro i j hi hj; exact hinj i j (by omega) (by omega))
        have hstep := step_no_rot v k 0 r
          (by intro i j hi hj; exact hinj i j (by omega) (by omega)) (by omega) (by omega)
        show (PingPongBloom.check_and_set (runIns v (freshFilter k) (0 * k + r))
          (v (0 * k + r))).2 = expState v k 0 (r + 1)
        rw [hprev, hstep]
  | succ g' ihg =>
    intro r
    induction r with
    | zero => intro h1 _ _; exact absurd h1 (by omega)
    | succ r ihr =>
      intro _ hrk hinj
      by_cases hr0 : r = 0
      · subst hr0
        have hgk : (g' + 1) * k = g' * k + k := add_one_mul g' k
        have hinj' : ∀ i j, i < g' * k + k + 1 → j < g' * k + k + 1 → v i = v j → i = j := by
          intro i j hi hj
          exact hinj i j (by omega) (by omega)
        have hprev := ihg k (by omega) (le_refl k)
          (by intro i j hi hj; exact hinj' i j (by omega) (by omega))
        have hstep := step_rot v k g' hk hinj'
        simp only [Nat.zero_add]
        rw [hgk]
        show (PingPongBloom.check_and_set (runIns v (freshFilter k) (g' * k + k))
          (v (g' * k + k))).2 = expState v k (g' + 1) 1
        rw [hprev, hstep]
      · have hprev := ihr (by omega) (by omega)
          (by intro i j hi hj; exact hinj i j (by omega) (by omega))
        have hstep := step_no_rot v k (g' + 1) r
          (by intro i j hi hj; exact hinj i j (by omega) (by omega)) (by omega) (by omega)
        show (PingPongBloom.check_and_set (runIns v (freshFilter k) ((g' + 1) * k + r))
          (v ((g' + 1) * k + r))).2 = expState v k (g' + 1) (r + 1)
        rw [hprev, hstep]

/-- Querying during generation 0: every inserted value is present. -/
theorem check_expState_zero (v : Nat → Bytes) (k r j : Nat) (hj : j < r) :
    (PingPongBloom.check_and_set (expState v k 0 r) (v j)).1 = true := by
  rw [check_and_set_fst]
  have hmem : v j ∈ slotList v 0 r := mem_slotList.mpr ⟨j, by omega, by omega, rfl⟩
  simp [expState, Bloom.check, hmem]

/-- Querying after generation `g' + 1` has begun: `v j` is present exactly
when its index is at or past the start of the previous generation. -/
theorem check_expState_succ (v : Nat → Bytes) (k g' r j : Nat)
    (hinj : ∀ i1 i2, i1 < (g' + 1) * k + r → i2 < (g' + 1) * k + r → v i1 = v i2 → i1 = i2)
    (hj : j < (g' + 1) * k + r) :
    ((PingPongBloom.check_and_set (expState v k (g' + 1) r) (v j)).1 = true
      ↔ g' * k ≤ j) := by
  have hgk : (g' + 1) * k = g' * k + k := add_one_mul g' k
  rw [check_and_set_fst]
  have hiff : (v j ∈ slotList v ((g' + 1) * k) r ∨ v j ∈ slotList v (g' * k) k)
      ↔ g' * k ≤ j := by
    constructor
    · rintro (hmem | hmem)
      · obtain ⟨i, h1, h2, h3⟩ := mem_slotList.mp hmem
        have := hinj j i hj (by omega) h3
        omega
      · obtain ⟨i, h1, h2, h3⟩ := mem_slotList.mp hmem
        have := hinj j i hj (by omega) h3
        omega
    · intro hge
      by_cases hact : (g' + 1) * k ≤ j
      · exact Or.inl (mem_slotList.mpr ⟨j, hact, by omega, rfl⟩)
      · exact Or.inr (mem_slotList.mpr ⟨j, hge, by omega, rfl⟩)
  rcases Nat.mod_two_eq_zero_or_one (g' + 1) with hpar | hpar
  · simp only [expState, hpar, if_true, Bloom.check, Bool.or_eq_true, decide_eq_true_eq]
    exact hiff
  · simp only [expState, hpar, Bloom.check, Bool.or_eq_true, decide_eq_true_eq]
    simp only [show (1 : Nat) ≠ 0 from by omega, if_false]
    exact or_comm.trans hiff

/-- A value whose index is inside the guaranteed window of the last
`k + 1` insertions is still reported present. -/
theorem check_runIns_window_aux (v : Nat → Bytes) (k g r j : Nat) (hk : 1 ≤ k)
    (hinj : ∀ i1 i2, i1 < g * k + r → i2 < g * k + r → v i1 = v i2 → i1 = i2)
    (hr1 : 1 ≤ r) (hrk : r ≤ k) (hj : j < g * k + r)
    (hwin : g * k + r ≤ k + 1 + j) :
    (PingPongBloom.check_and_set (runIns v (freshFilter k) (g * k + r)) (v j)).1 = true := by
  rw [runIns_freshFilter v k hk g r hr1 hrk hinj]
  cases g with
  | zero => exact check_expState_zero v k r j (by omega)
  | succ g' =>
    have hgk : (g' + 1) * k = g' * k + k := add_one_mul g' k
    exact (check_expState_succ v k g' r j hinj hj).mpr (by omega)

/-- A canonical family of distinct 3-byte nonces (little-endian). -/
def enc (i : Nat) : Bytes := [i % 256, i / 256 % 256, i / 65536 % 256]

/-- `enc` is injective below `2^24`. -/
theorem enc_inj (i j : Nat) (hi : i < 16777216) (hj : j < 16777216)
    (h : enc i = enc j) : i = j := by
  simp only [enc, List.cons.injEq, and_true] at h
  omega

/-- C4: with the server-role filter (two slots of 500000), after
sequentially inserting 1500000 distinct values, each of the most recent
1000000 is reported present by `check_and_set` and each of the oldest
500000 is reported not present. -/
theorem claim_C4_server_window_scenario :
    ∀ v : Nat → Bytes,
      (∀ i1 i2, i1 < 1500000 → i2 < 1500000 → v i1 = v i2 → i1 = i2) →
      ∀ j : Nat,
        (500000 ≤ j → j < 1500000 →
          (PingPongBloom.check_and_set
            (runIns v (PingPongBloom.new ConfigType.Server) 1500000) (v j)).1 = true)
        ∧ (j < 500000 →
          (PingPongBloom.check_and_set
            (runIns v (PingPongBloom.new ConfigType.Server) 1500000) (v j)).1 = false) := by
  intro v hinj j
  have hstate : runIns v (PingPongBloom.new ConfigType.Server) 1500000
      = expState v 500000 2 500000 := by
    rw [new_Server_eq, show (1500000 : Nat) = 2 * 500000 + 500000 from by norm_num]
    exact runIns_freshFilter v 500000 (by norm_num) 2 500000 (by norm_num) (le_refl _)
      (by intro i1 i2 h1 h2; exact hinj i1 i2 (by omega) (by omega))
  constructor
  · intro hge hlt
    rw [hstate]
    have hq := check_expState_succ v 500000 1 500000 j
      (by intro i1 i2 hx hy; exact hinj i1 i2 (by omega) (by omega)) (by omega)
    exact hq.mpr (by omega)
  · intro hlt
    rw [hstate]
    have hq := check_expState_succ v 500000 1 500000 j
      (by intro i1 i2 hx hy; exact hinj i1 i2 (by omega) (by omega)) (by omega)
    cases hb : (PingPongBloom.check_and_set (expState v 500000 2 500000) (v j)).1 with
    | false => rfl
    | true => exact absurd (hq.mp hb) (by omega)

/-- Witness for C4 with the concrete nonce family `enc`, at the oldest
surviving index and at the first forgotten index. -/
theorem claim_C4_server_window_scenario_witness :
    (PingPongBloom.check_and_set (runIns enc (PingPongBloom.new ConfigType.Server) 1500000)
      (enc 500000)).1 = true
    ∧ (PingPongBloom.check_and_set (runIns enc (PingPongBloom.new ConfigType.Server) 1500000)
      (enc 0)).1 = false := by
  have hinj : ∀ i1 i2, i1 < 1500000 → i2 < 1500000 → enc i1 = enc i2 → i1 = i2 := by
    intro i1 i2 h1 h2 h
    exact enc_inj i1 i2 (by omega) (by omega) h
  exact ⟨(claim_C4_server_window_scenario enc hinj 500000).1 (by norm_num) (by norm_num),
    (claim_C4_server_window_scenario enc hinj 0).2 (by norm_num)⟩

/-- C3 fails as stated: with the client-role filter (`N = 10000`), insert
the 10001 distinct values `enc 0 … enc 10000`; the value `enc 1` lies
within the last `N` insertions (`10001 ≤ N + 1`), yet the filter reports
it not present — the slot holding generation 0 was cleared at insertion
10001.  This refutes the claim's `N`-insertion sliding window. -/
theorem claim_C3_counterexample :
    ¬ (∀ (v : Nat → Bytes) (M j : Nat),
        (∀ i1 i2, i1 < M → i2 < M → v i1 = v i2 → i1 = i2) →
        1 ≤ M → j < M →
        M ≤ 2 * (PingPongBloom.new ConfigType.Local).item_count + j →
        (PingPongBloom.check_and_set (runIns v (PingPongBloom.new ConfigType.Local) M)
          (v j)).1 = true) := by
  intro hclaim
  have hinj : ∀ i1 i2, i1 < 10001 → i2 < 10001 → enc i1 = enc i2 → i1 = i2 := by
    intro i1 i2 h1 h2 h
    exact enc_inj i1 i2 (by omega) (by omega) h
  have happ := hclaim enc 10001 1 hinj (by norm_num) (by norm_num) (by decide)
  have hstate : runIns enc (PingPongBloom.new ConfigType.Local) 10001
      = expState enc 5000 2 1 := by
    rw [new_Local_eq, show (10001 : Nat) = 2 * 5000 + 1 from by norm_num]
    exact runIns_freshFilter enc 5000 (by norm_num) 2 1 (by norm_num) (by norm_num)
      (by intro i1 i2 h1 h2; exact hinj i1 i2 (by omega) (by omega))
  have hq := check_expState_succ enc 5000 1 1 1
    (by intro i1 i2 hx hy; exact hinj i1 i2 (by omega) (by omega)) (by norm_num)
  rw [hstate] at happ
  exact absurd (hq.mp happ) (by norm_num)

/-- C3 (amended): for either role, a value inserted within the last
`N/2 + 1` insertions (`N/2` = per-slot capacity `item_count`) is always
still reported present by `check_and_set` — the tight guaranteed window is
`N/2 + 1`, not `N`. -/
theorem claim_C3_no_false_negative_half_window (ty : ConfigType) (v : Nat → Bytes)
    (M j : Nat)
    (hinj : ∀ i1 i2, i1 < M → i2 < M → v i1 = v i2 → i1 = i2)
    (hM : 1 ≤ M) (hj : j < M)
    (hwin : M ≤ (PingPongBloom.new ty).item_count + 1 + j) :
    (PingPongBloom.check_and_set (runIns v (PingPongBloom.new ty) M) (v j)).1 = true := by
  cases ty with
  | Local =>
    have hic : (PingPongBloom.new ConfigType.Local).item_count = 5000 := rfl
    rw [hic] at hwin
    rw [new_Local_eq]
    obtain ⟨g, r, hgr, hr1, hrk⟩ : ∃ g r, M = g * 5000 + r ∧ 1 ≤ r ∧ r ≤ 5000 :=
      ⟨(M - 1) / 5000, M - ((M - 1) / 5000) * 5000, by omega, by omega, by omega⟩
    subst hgr
    exact check_runIns_window_aux v 5000 g r j (by norm_num) hinj hr1 hrk hj (by omega)
  | Server =>
    have hic : (PingPongBloom.new ConfigType.Server).item_count = 500000 := rfl
    rw [hic] at hwin
    rw [new_Server_eq]
    obtain ⟨g, r, hgr, hr1, hrk⟩ : ∃ g r, M = g * 500000 + r ∧ 1 ≤ r ∧ r ≤ 500000 :=
      ⟨(M - 1) / 500000, M - ((M - 1) / 500000) * 500000, by omega, by omega, by omega⟩
    subst hgr
    exact check_runIns_window_aux v 500000 g r j (by norm_num) hinj hr1 hrk hj (by omega)

/-- Witness for the amended C3: one insertion, query it back. -/
theorem claim_C3_no_false_negative_half_window_witness :
    (PingPongBloom.check_and_set (runIns enc (PingPongBloom.new ConfigType.Local) 1)
      (enc 0)).1 = true :=
  claim_C3_no_false_negative_half_window ConfigType.Local enc 1 0
    (by intro i1 i2 h1 h2 _; omega) (by norm_num) (by norm_num) (by decide)

/-! ## Concrete contexts for the remaining witnesses -/

/-- Witness for C7 on the ACL-less sample context at `ip = 5`. -/
theorem claim_C7_reverse_cache_exception_rule_witness :
    cacheGet (Context.add_to_reverse_lookup_cache sampleContext 5 true).reverse_lookup_cache 5
      = none
    ∧ cacheGet (Context.add_to_reverse_lookup_cache sampleContext 5 false).reverse_lookup_cache 5
      = some false :=
  claim_C7_reverse_cache_exception_rule.2 sampleContext 5 rfl

/-- A concrete ACL: everything in the proxy list, nothing bypassed. -/
def sampleAcl : AccessControl :=
  { check_ip_in_proxy_list := fun _ => true
    check_target_bypassed := fun _ => false }

/-- A concrete context with an ACL and a cached `forward = true` entry
for IP 5. -/
def sampleContextAcl : Context :=
  { config := { config_type := ConfigType.Local, acl := some sampleAcl }
    server_state := ⟨⟩
    server_running := true
    nonce_ppbloom := PingPongBloom.new ConfigType.Local
    reverse_lookup_cache := [(5, true)] }

/-- Witness for C8: the cached `forward = true` for IP 5 short-circuits to
"not bypassed". -/
theorem claim_C8_cache_short_circuits_acl_witness :
    Context.check_target_bypassed sampleContextAcl (Address.SocketAddress ⟨5, 80⟩) = false := by
  rw [claim_C8_cache_short_circuits_acl sampleContextAcl sampleAcl ⟨5, 80⟩ rfl]
  rfl

/-- Witness for C10: even with a cached bypass exception for IP 5 recorded
via `add_to_reverse_lookup_cache`, the ACL-less context never bypasses. -/
theorem claim_C10_no_acl_never_bypassed_witness :
    Context.check_target_bypassed (Context.add_to_reverse_lookup_cache sampleContext 5 false)
      (Address.SocketAddress ⟨5, 80⟩) = false :=
  claim_C10_no_acl_never_bypassed (Context.add_to_reverse_lookup_cache sampleContext 5 false)
    (Address.SocketAddress ⟨5, 80⟩) rfl
